import Mathlib

/-!
Verification of the ROI matching/sampling/encode/decode layer
(`libs/layers/roi.py` of FastMaskRCNN).

The Python module is shallowly embedded here:

* numpy float arrays become `List ℚ` (rows) and `List (List ℚ)` (matrices);
* the external collaborators (`bbox_overlaps`, `bbox_transform`,
  `bbox_transform_inv`, `clip_boxes`) are parameters of the embedded
  functions, since the module only consumes their interfaces;
* the two `np.random.choice` draws are parameters (`fgDraw`, `bgDraw`);
  theorems quantify over all valid draws;
* Python runtime failures (failed `assert`, out-of-range fancy index,
  shape-mismatch broadcast) are modelled with `Except PyErr`.
-/

/-- Rows of a numpy float array are lists of rationals. -/
abbrev Row : Type := List ℚ

/-- A 2-D numpy float array is a list of rows. -/
abbrev Mat : Type := List Row

/-- Python runtime failures that the embedded code can raise. -/
inductive PyErr : Type
  | assertErr
  | indexErr
  | valueErr
deriving DecidableEq

deriving instance DecidableEq for Except

/-- Python `int(...)` truncation of a rational toward zero. -/
def truncInt (q : ℚ) : ℤ := q.num.tdiv q.den

/-- Python `min` on two scalars. -/
def minQ (a b : ℚ) : ℚ := if a ≤ b then a else b

/-- Python `max` on two scalars. -/
def maxQ (a b : ℚ) : ℚ := if a ≤ b then b else a

/-- Embedded `np.where(cond)[0]` on a 1-D array: the indices whose entry
satisfies the condition, in increasing order. -/
def npWhere (p : ℚ → Bool) (xs : Row) : List ℕ :=
  (List.range xs.length).filter (fun i => p (xs.getD i 0))

/-- The scan underlying `np.argmax`: walk the remaining entries keeping the
first index of the running maximum (a later entry replaces the current best
only when strictly greater). -/
def argmaxAux : List ℚ → ℚ → ℕ → ℕ → ℕ
  | [], _, _, best => best
  | x :: rest, bv, k, best =>
    if bv < x then argmaxAux rest x (k + 1) k else argmaxAux rest bv (k + 1) best

/-- Embedded `np.argmax` on a 1-D array (first index of the maximum;
numpy raises on an empty array, callers guard that case). -/
def npArgmax : Row → ℕ
  | [] => 0
  | x :: rest => argmaxAux rest x 1 0

/-- Embedded `np.max` on a 1-D array. -/
def npMax : Row → ℚ
  | [] => 0
  | x :: rest => rest.foldl maxQ x

/-- numpy basic slice assignment `row[start:stop] = vals`.  Slice bounds are
clipped to the row; the assignment succeeds when `vals` matches the clipped
slice length exactly or is a length-1 broadcast, otherwise it is a
`ValueError`. -/
def npSliceAssign (row : Row) (start stop : ℕ) (vals : Row) : Option Row :=
  let lo := min start row.length
  let hi := max lo (min stop row.length)
  if vals.length = hi - lo then
    some ((List.range row.length).map fun j =>
      if lo ≤ j ∧ j < hi then vals.getD (j - lo) 0 else row.getD j 0)
  else if vals.length = 1 then
    some ((List.range row.length).map fun j =>
      if lo ≤ j ∧ j < hi then vals.getD 0 0 else row.getD j 0)
  else none

/-- numpy scalar slice fill `row[start:stop] = v` (a scalar broadcasts onto
any slice, so this never fails). -/
def sliceFill (row : Row) (start stop : ℕ) (v : ℚ) : Row :=
  (List.range row.length).map fun j =>
    if start ≤ j ∧ j < stop then v else row.getD j 0

/-- Row-wise fancy-index write `full[inds, :] = data`, as the sequential
writes numpy performs: on duplicate indices the last write wins. -/
def writeRows (init : Mat) (l : List (ℕ × Row)) : Mat :=
  l.foldl (fun r p => r.set p.1 p.2) init

/-- The four configuration scalars the sampler reads from `cfg.FLAGS`. -/
structure Flags where
  fg_threshold : ℚ
  bg_threshold : ℚ
  rois_per_image : ℕ
  fg_roi_fraction : ℚ

/-- Embedded `_unmap(data, count, inds, fill)` (2-D branch, the one `encode`
exercises): allocate a `count`-row array with `data`'s trailing shape, fill
it with the sentinel, then `ret[inds, :] = data`.  An out-of-range index is
an `IndexError`; a row-count mismatch between `inds` and `data` (other than
a 1-row broadcast) is a `ValueError`. -/
def _unmap (data : Mat) (count : ℕ) (inds : List ℕ) (fill : ℚ) : Except PyErr Mat :=
  let width := (data.headD []).length
  let ret : Mat := List.replicate count (List.replicate width fill)
  if ∀ i ∈ inds, i < count then
    if inds.length = data.length then
      Except.ok (writeRows ret (inds.zip data))
    else if data.length = 1 then
      Except.ok (inds.foldl (fun r i => r.set i (data.headD [])) ret)
    else Except.error PyErr.valueErr
  else Except.error PyErr.indexErr

/-- Python `int(clss[ind])` for the class of a row.  The loop below only
visits rows whose label is positive, so the truncation is nonnegative. -/
def clsOf (labels : Row) (ind : ℕ) : ℕ := (truncInt (labels.getD ind 0)).toNat

/-- One iteration of the `for ind in inds` loop of `_compute_targets`:
`bbox_targets[ind, 4*cls : 4*cls+4] = targets[ind, 0:4]` followed by
`bbox_inside_weights[ind, 4*cls : 4*cls+4] = 1`.  Reading `targets[ind]`
out of range is an `IndexError`. -/
def ctStep (targets : Mat) (labels : Row) (acc : Mat × Mat) (ind : ℕ) :
    Except PyErr (Mat × Mat) :=
  match targets.get? ind with
  | none => Except.error PyErr.indexErr
  | some trow =>
    match npSliceAssign (acc.1.getD ind []) (4 * clsOf labels ind)
        (4 * clsOf labels ind + 4) (trow.take 4) with
    | none => Except.error PyErr.valueErr
    | some newRow =>
      Except.ok (acc.1.set ind newRow,
        acc.2.set ind (sliceFill (acc.2.getD ind []) (4 * clsOf labels ind)
          (4 * clsOf labels ind + 4) 1))

/-- Embedded `_compute_targets(ex_rois, gt_rois, labels, num_classes)`.
`bt` is the external `bbox_transform` box-delta encoder, applied row-wise.
The three `assert` statements guard the box arrays' shapes; then two
`len(labels) × 4*num_classes` zero arrays are filled row by row over
`np.where(clss > 0)[0]`. -/
def _compute_targets (bt : Row → Row → Row) (ex_rois gt_rois : Mat) (labels : Row)
    (num_classes : ℕ) : Except PyErr (Mat × Mat) :=
  if ex_rois.length = gt_rois.length ∧ (∀ r ∈ ex_rois, r.length = 4)
      ∧ (∀ r ∈ gt_rois, r.length = 4) then
    let targets := (ex_rois.zip gt_rois).map fun p => bt p.1 p.2
    let zer : Mat := List.replicate labels.length (List.replicate (4 * num_classes) 0)
    (npWhere (fun q => decide (0 < q)) labels).foldlM (ctStep targets labels) (zer, zer)
  else Except.error PyErr.assertErr

/-- The `R × G` overlap matrix `bbox_overlaps(rois[:, 0:4], gt_boxes[:, :4])`,
with the pairwise IoU `iou` delegated. -/
def overlapsOf (iou : Row → Row → ℚ) (gt_boxes rois : Mat) : Mat :=
  rois.map fun r => gt_boxes.map fun g => iou (r.take 4) (g.take 4)

/-- `gt_assignment = overlaps.argmax(axis=1)`. -/
def gtAssignmentOf (iou : Row → Row → ℚ) (gt_boxes rois : Mat) : List ℕ :=
  (overlapsOf iou gt_boxes rois).map npArgmax

/-- `max_overlaps = overlaps[np.arange(R), gt_assignment]`. -/
def maxOverlapsOf (iou : Row → Row → ℚ) (gt_boxes rois : Mat) : Row :=
  (List.range rois.length).map fun i =>
    ((overlapsOf iou gt_boxes rois).getD i []).getD
      ((gtAssignmentOf iou gt_boxes rois).getD i 0) 0

/-- `labels = gt_boxes[gt_assignment, 4]` (before background forcing). -/
def rawLabelsOf (iou : Row → Row → ℚ) (gt_boxes rois : Mat) : Row :=
  (gtAssignmentOf iou gt_boxes rois).map fun a => (gt_boxes.getD a []).getD 4 0

/-- `fg_inds = np.where(max_overlaps >= fg_threshold)[0]`. -/
def fgIndsOf (iou : Row → Row → ℚ) (flags : Flags) (gt_boxes rois : Mat) : List ℕ :=
  npWhere (fun q => decide (flags.fg_threshold ≤ q)) (maxOverlapsOf iou gt_boxes rois)

/-- `fg_rois = int(min(fg_inds.size, rois_per_image * fg_roi_fraction))`. -/
def fgRoisOf (iou : Row → Row → ℚ) (flags : Flags) (gt_boxes rois : Mat) : ℤ :=
  truncInt (minQ ((fgIndsOf iou flags gt_boxes rois).length : ℚ)
    ((flags.rois_per_image : ℚ) * flags.fg_roi_fraction))

/-- The foreground indices kept after the `np.random.choice` draw: the draw
result when `fg_inds.size > 0`, the (empty) `fg_inds` itself otherwise. -/
def keptFgOf (iou : Row → Row → ℚ) (flags : Flags) (gt_boxes rois : Mat)
    (fgDraw : List ℕ) : List ℕ :=
  if 0 < (fgIndsOf iou flags gt_boxes rois).length then fgDraw
  else fgIndsOf iou flags gt_boxes rois

/-- `bg_inds = np.where(max_overlaps < bg_threshold)[0]`. -/
def bgIndsOf (iou : Row → Row → ℚ) (flags : Flags) (gt_boxes rois : Mat) : List ℕ :=
  npWhere (fun q => decide (q < flags.bg_threshold)) (maxOverlapsOf iou gt_boxes rois)

/-- The labels array after `labels[bg_inds] = 0` (applied to the full
background-eligible set, before any background subsampling). -/
def labelsOf (iou : Row → Row → ℚ) (flags : Flags) (gt_boxes rois : Mat) : Row :=
  (bgIndsOf iou flags gt_boxes rois).foldl (fun l i => l.set i 0)
    (rawLabelsOf iou gt_boxes rois)

/-- `bg_rois = rois_per_image - fg_rois` (a Python int, possibly negative). -/
def bgRoisOf (iou : Row → Row → ℚ) (flags : Flags) (gt_boxes rois : Mat) : ℤ :=
  (flags.rois_per_image : ℤ) - fgRoisOf iou flags gt_boxes rois

/-- The background indices kept: the draw result when
`bg_inds.size > 0 and bg_rois < bg_inds.size`, the whole `bg_inds`
otherwise. -/
def keptBgOf (iou : Row → Row → ℚ) (flags : Flags) (gt_boxes rois : Mat)
    (bgDraw : List ℕ) : List ℕ :=
  if 0 < (bgIndsOf iou flags gt_boxes rois).length ∧
      bgRoisOf iou flags gt_boxes rois < ((bgIndsOf iou flags gt_boxes rois).length : ℤ)
  then bgDraw
  else bgIndsOf iou flags gt_boxes rois

/-- `keep_inds = np.append(fg_inds, bg_inds)` after both draws. -/
def keepIndsOf (iou : Row → Row → ℚ) (flags : Flags) (gt_boxes rois : Mat)
    (fgDraw bgDraw : List ℕ) : List ℕ :=
  keptFgOf iou flags gt_boxes rois fgDraw ++ keptBgOf iou flags gt_boxes rois bgDraw

/-- Embedded `encode(gt_boxes, rois, num_classes)`.  `iou` is the delegated
pairwise overlap, `bt` the delegated box-delta encoder, `fgDraw`/`bgDraw`
the results of the two `np.random.choice` draws.  The guards model numpy
raising on an argmax over an empty axis and on a negative-size draw. -/
def encode (iou : Row → Row → ℚ) (bt : Row → Row → Row) (flags : Flags)
    (fgDraw bgDraw : List ℕ) (gt_boxes rois : Mat) (num_classes : ℕ) :
    Except PyErr (Row × Mat × Mat × Mat) :=
  if gt_boxes.length = 0 then Except.error PyErr.valueErr
  else if 0 < (fgIndsOf iou flags gt_boxes rois).length ∧
      fgRoisOf iou flags gt_boxes rois < 0 then Except.error PyErr.valueErr
  else if 0 < (bgIndsOf iou flags gt_boxes rois).length ∧
      bgRoisOf iou flags gt_boxes rois < ((bgIndsOf iou flags gt_boxes rois).length : ℤ) ∧
      bgRoisOf iou flags gt_boxes rois < 0 then Except.error PyErr.valueErr
  else
    let gt_assignment := gtAssignmentOf iou gt_boxes rois
    let labels := labelsOf iou flags gt_boxes rois
    let keep := keepIndsOf iou flags gt_boxes rois fgDraw bgDraw
    match _compute_targets bt
        (keep.map fun i => (rois.getD i []).take 4)
        (keep.map fun i => (gt_boxes.getD (gt_assignment.getD i 0) []).take 4)
        labels num_classes with
    | Except.error e => Except.error e
    | Except.ok (tgs, ws) =>
      match _unmap tgs rois.length keep 0 with
      | Except.error e => Except.error e
      | Except.ok bbox_targets =>
        match _unmap ws rois.length keep 0 with
        | Except.error e => Except.error e
        | Except.ok bbox_inside_weights =>
          Except.ok (labels, rois, bbox_targets, bbox_inside_weights)

/-- One row of the `decode` selection loop:
`final_boxes[i, 0:4] = boxes[i, 4*cls : 4*cls+4]`.  The right-hand slice
read is clipped by numpy; the assignment fails if it does not hold exactly
4 entries (or a 1-entry broadcast). -/
def decodeFinalRow (boxesRow : Row) (cls : ℕ) : Except PyErr Row :=
  match npSliceAssign (List.replicate 4 0) 0 4 ((boxesRow.drop (cls * 4)).take 4) with
  | some r => Except.ok r
  | none => Except.error PyErr.valueErr

/-- Embedded `decode(boxes, scores, rois, ih, iw)`.  `btInv` is the delegated
`bbox_transform_inv` applied row-wise to a proposal row and its delta row;
`clip` is the delegated `clip_boxes` applied row-wise with the image height
and width.  The guard models `np.argmax(axis=1)` raising on an empty row. -/
def decode (btInv : Row → Row → Row) (clip : Row → ℚ → ℚ → Row)
    (boxes scores rois : Mat) (ih iw : ℚ) :
    Except PyErr (Mat × List ℕ × Row) :=
  if scores.any (fun s => s.isEmpty) then Except.error PyErr.valueErr
  else
    let boxes2 := (rois.zip boxes).map fun p => btInv p.1 p.2
    let classes := scores.map npArgmax
    let maxScores := scores.map npMax
    match (List.range boxes2.length).mapM
        (fun i => decodeFinalRow (boxes2.getD i []) (classes.getD i 0)) with
    | Except.error e => Except.error e
    | Except.ok final =>
      Except.ok (final.map (fun r => clip r ih iw), classes, maxScores)

/-- The property "index `a` is the first maximum of `row`": exactly the
argmax-with-lowest-index-tie-break contract of the matcher and the decoder. -/
def isFirstMax (row : Row) (a : ℕ) : Prop :=
  a < row.length ∧ (∀ j, j < row.length → row.getD j 0 ≤ row.getD a 0) ∧
    ∀ j, j < a → row.getD j 0 < row.getD a 0

/-- Concrete pairwise rectangle IoU, used to instantiate the delegated
overlap computation in concrete runs. -/
def iouEx (a b : Row) : ℚ :=
  let iw0 := minQ (a.getD 2 0) (b.getD 2 0) - maxQ (a.getD 0 0) (b.getD 0 0)
  let ih0 := minQ (a.getD 3 0) (b.getD 3 0) - maxQ (a.getD 1 0) (b.getD 1 0)
  let inter := maxQ 0 iw0 * maxQ 0 ih0
  let areaA := (a.getD 2 0 - a.getD 0 0) * (a.getD 3 0 - a.getD 1 0)
  let areaB := (b.getD 2 0 - b.getD 0 0) * (b.getD 3 0 - b.getD 1 0)
  if areaA + areaB - inter = 0 then 0 else inter / (areaA + areaB - inter)

/-- Concrete box-delta encoder (plain coordinate differences), used to
instantiate the delegated `bbox_transform` in concrete runs. -/
def btEx (a g : Row) : Row :=
  [g.getD 0 0 - a.getD 0 0, g.getD 1 0 - a.getD 1 0,
   g.getD 2 0 - a.getD 2 0, g.getD 3 0 - a.getD 3 0]

/-- Concrete inverse transform (the delta row itself), used to instantiate
the delegated `bbox_transform_inv` in concrete runs. -/
def btInvEx (_r d : Row) : Row := d

/-- Concrete box clipper, used to instantiate the delegated `clip_boxes`
in concrete runs. -/
def clipEx (r : Row) (hgt wid : ℚ) : Row :=
  [maxQ 0 (minQ (r.getD 0 0) wid), maxQ 0 (minQ (r.getD 1 0) hgt),
   maxQ 0 (minQ (r.getD 2 0) wid), maxQ 0 (minQ (r.getD 3 0) hgt)]

/-- Concrete configuration for concrete runs: `fg_threshold = 1/2`,
`bg_threshold = 1/10`, `rois_per_image = 4`, `fg_roi_fraction = 1/4`. -/
def flagsEx : Flags := ⟨1/2, 1/10, 4, 1/4⟩

/-! ### Small list toolbox -/

lemma getD_set_self {α : Type} (l : List α) (i : ℕ) (x d : α) (h : i < l.length) :
    (l.set i x).getD i d = x := by
  rw [List.getD_eq_getElem?_getD, List.getElem?_set_self h]
  rfl

lemma getD_set_ne {α : Type} (l : List α) {i j : ℕ} (x : α) (d : α) (h : i ≠ j) :
    (l.set i x).getD j d = l.getD j d := by
  rw [List.getD_eq_getElem?_getD, List.getElem?_set_ne h, ← List.getD_eq_getElem?_getD]

lemma getD_map {α β : Type} (f : α → β) (l : List α) (i : ℕ) (d : α) (d' : β)
    (h : i < l.length) : (l.map f).getD i d' = f (l.getD i d) := by
  rw [List.getD_eq_getElem _ _ (by simpa using h), List.getElem_map,
    List.getD_eq_getElem _ _ h]

lemma getD_range {n i : ℕ} (h : i < n) : (List.range n).getD i 0 = i := by
  rw [List.getD_eq_getElem _ _ (by simpa using h), List.getElem_range]

lemma getD_replicate {α : Type} (a d : α) {n i : ℕ} (h : i < n) :
    (List.replicate n a).getD i d = a := by
  rw [List.getD_eq_getElem _ _ (by simpa using h), List.getElem_replicate]

lemma mem_npWhere {p : ℚ → Bool} {xs : Row} {i : ℕ} :
    i ∈ npWhere p xs ↔ i < xs.length ∧ p (xs.getD i 0) = true := by
  simp [npWhere, List.mem_filter, List.mem_range]

lemma npWhere_nodup (p : ℚ → Bool) (xs : Row) : (npWhere p xs).Nodup :=
  List.Nodup.filter _ (List.nodup_range _)

lemma foldl_setZero_length (inds : List ℕ) (l : Row) :
    (inds.foldl (fun l i => l.set i 0) l).length = l.length := by
  induction inds generalizing l with
  | nil => rfl
  | cons a t ih => rw [List.foldl_cons, ih, List.length_set]

lemma foldl_setZero_getD (inds : List ℕ) (l : Row) (j : ℕ) :
    (inds.foldl (fun l i => l.set i 0) l).getD j 0 =
      if j ∈ inds ∧ j < l.length then 0 else l.getD j 0 := by
  induction inds generalizing l with
  | nil => simp
  | cons a t ih =>
    rw [List.foldl_cons, ih, List.length_set]
    by_cases hj : j < l.length
    · by_cases hmem : j ∈ t
      · rw [if_pos ⟨hmem, hj⟩, if_pos ⟨List.mem_cons_of_mem _ hmem, hj⟩]
      · by_cases hja : j = a
        · subst hja
          rw [if_neg (fun hc => hmem hc.1), getD_set_self _ _ _ _ hj,
            if_pos ⟨List.mem_cons_self _ _, hj⟩]
        · have hne : a ≠ j := fun hh => hja hh.symm
          rw [if_neg (fun hc => hmem hc.1), getD_set_ne _ _ _ hne,
            if_neg (fun hc => (List.mem_cons.mp hc.1).elim hja hmem)]
    · have h1 : (l.set a 0).getD j 0 = 0 :=
        List.getD_eq_default _ _ (by rw [List.length_set]; exact Nat.le_of_not_lt hj)
      have h2 : l.getD j 0 = 0 := List.getD_eq_default _ _ (Nat.le_of_not_lt hj)
      rw [if_neg (fun hc => hj hc.2), if_neg (fun hc => hj hc.2), h1, h2]

/-! ### Scalar helpers -/

lemma minQ_le_left (a b : ℚ) : minQ a b ≤ a := by
  rw [minQ]
  split
  · exact le_rfl
  · next h => exact (not_le.mp h).le

lemma minQ_le_right (a b : ℚ) : minQ a b ≤ b := by
  rw [minQ]
  split
  · next h => exact h
  · exact le_rfl

lemma le_minQ {a b c : ℚ} (h1 : c ≤ a) (h2 : c ≤ b) : c ≤ minQ a b := by
  rw [minQ]
  split
  · exact h1
  · exact h2

lemma truncInt_eq_floor {q : ℚ} (h : 0 ≤ q) : truncInt q = ⌊q⌋ := by
  rw [truncInt, Rat.floor_def, Int.tdiv_eq_ediv (Rat.num_nonneg.mpr h) (Int.natCast_nonneg _)]

lemma truncInt_natCast (n : ℕ) : truncInt (n : ℚ) = n := by
  rw [truncInt_eq_floor (by positivity), Int.floor_natCast]

/-! ### First-max argmax scan -/

lemma argmaxAux_spec (rest : List ℚ) : ∀ (ys : Row) (k best : ℕ) (bv : ℚ),
    rest = ys.drop k → bv = ys.getD best 0 → best < ys.length → best ≤ k →
    (∀ j, j < k → ys.getD j 0 ≤ bv) →
    (∀ j, j < best → ys.getD j 0 < bv) →
    argmaxAux rest bv k best < ys.length ∧
      (∀ j, j < ys.length → ys.getD j 0 ≤ ys.getD (argmaxAux rest bv k best) 0) ∧
      (∀ j, j < argmaxAux rest bv k best → ys.getD j 0 < ys.getD (argmaxAux rest bv k best) 0) := by
  induction rest with
  | nil =>
    intro ys k best bv hrest hbv hblt _hbk hle hlt
    have hk : ys.length ≤ k := by
      by_contra hc
      have : ys.drop k ≠ [] := by
        intro hnil
        rw [List.drop_eq_nil_iff] at hnil
        exact hc hnil
      exact this hrest.symm
    simp only [argmaxAux]
    refine ⟨hblt, ?_, ?_⟩
    · intro j hj
      rw [← hbv]
      exact hle j (lt_of_lt_of_le hj hk)
    · intro j hj
      rw [← hbv]
      exact hlt j hj
  | cons x rest' ih =>
    intro ys k best bv hrest hbv hblt hbk hle hlt
    have hklen : k < ys.length := by
      by_contra hc
      have hdz : ys.drop k = [] := List.drop_eq_nil_iff.mpr (Nat.le_of_not_lt hc)
      rw [hdz] at hrest
      exact List.cons_ne_nil _ _ hrest
    have hx : x = ys.getD k 0 := by
      have h0 : some x = ys[k]? := by
        have h1 := congrArg (fun l => l[0]?) hrest
        simp only [List.getElem?_cons_zero, List.getElem?_drop, Nat.add_zero] at h1
        exact h1
      rw [List.getD_eq_getElem?_getD, ← h0]
      rfl
    have hrest' : rest' = ys.drop (k + 1) := by
      have h1 := congrArg (List.drop 1) hrest
      simp only [List.drop_drop] at h1
      simpa using h1
    rw [argmaxAux]
    split
    · next hgt =>
      exact ih ys (k + 1) k x hrest' hx hklen (Nat.le_succ _)
        (fun j hj => by
          rcases Nat.lt_succ_iff_lt_or_eq.mp hj with hjk | hjk
          · exact le_of_lt (lt_of_le_of_lt (hle j hjk) hgt)
          · subst hjk; exact le_of_eq hx.symm)
        (fun j hj => lt_of_le_of_lt (hle j hj) hgt)
    · next hngt =>
      have hxle : ys.getD k 0 ≤ bv := by rw [← hx]; exact not_lt.mp hngt
      exact ih ys (k + 1) best bv hrest' hbv hblt (Nat.le_succ_of_le hbk)
        (fun j hj => by
          rcases Nat.lt_succ_iff_lt_or_eq.mp hj with hjk | hjk
          · exact hle j hjk
          · subst hjk; exact hxle)
        hlt

lemma npArgmax_isFirstMax (ys : Row) (h : 0 < ys.length) : isFirstMax ys (npArgmax ys) := by
  match ys, h with
  | x :: rest, _ =>
    rw [npArgmax]
    have := argmaxAux_spec rest (x :: rest) 1 0 x rfl rfl (by simp) (by omega)
      (fun j hj => by
        have hj0 : j = 0 := by omega
        subst hj0
        simp) (fun j hj => by omega)
    exact ⟨this.1, this.2.1, this.2.2⟩

lemma foldl_maxQ_le (l : List ℚ) : ∀ (a : ℚ),
    a ≤ l.foldl maxQ a ∧ ∀ x ∈ l, x ≤ l.foldl maxQ a := by
  induction l with
  | nil => intro a; exact ⟨le_rfl, by simp⟩
  | cons y t ih =>
    intro a
    have hmax : a ≤ maxQ a y ∧ y ≤ maxQ a y := by
      rw [maxQ]
      split
      · next hy => exact ⟨hy, le_rfl⟩
      · next hy => exact ⟨le_rfl, (not_le.mp hy).le⟩
    refine ⟨le_trans hmax.1 (ih (maxQ a y)).1, ?_⟩
    intro x hx
    rcases List.mem_cons.mp hx with hx | hx
    · rw [hx]
      exact le_trans hmax.2 (ih (maxQ a y)).1
    · exact (ih (maxQ a y)).2 x hx

lemma foldl_maxQ_mem (l : List ℚ) : ∀ (a : ℚ),
    l.foldl maxQ a = a ∨ l.foldl maxQ a ∈ l := by
  induction l with
  | nil => intro a; exact Or.inl rfl
  | cons y t ih =>
    intro a
    rcases ih (maxQ a y) with hcase | hcase
    · rw [List.foldl_cons, hcase, maxQ]
      split
      · exact Or.inr (List.mem_cons_self _ _)
      · exact Or.inl rfl
    · exact Or.inr (List.mem_cons_of_mem _ hcase)

lemma npMax_eq_argmax (ys : Row) (h : 0 < ys.length) :
    npMax ys = ys.getD (npArgmax ys) 0 := by
  obtain ⟨ha, hmax, _⟩ := npArgmax_isFirstMax ys h
  match ys, h, ha, hmax with
  | x :: rest, _, ha, hmax =>
    rw [npMax]
    apply le_antisymm
    · rcases foldl_maxQ_mem rest x with hcase | hcase
      · rw [hcase]
        have := hmax 0 (by simp)
        simpa using this
      · obtain ⟨n, hn, hval⟩ := List.mem_iff_getElem.mp hcase
        rw [← hval]
        have hn' : n + 1 < (x :: rest).length := by simpa using Nat.succ_lt_succ hn
        have := hmax (n + 1) hn'
        rw [List.getD_eq_getElem _ _ hn'] at this
        simpa using this
    · have hmem : (x :: rest).getD (npArgmax (x :: rest)) 0 ∈ x :: rest := by
        rw [List.getD_eq_getElem _ _ ha]
        exact List.getElem_mem _
      rcases List.mem_cons.mp hmem with hc | hc
      · rw [hc]
        exact (foldl_maxQ_le rest x).1
      · exact (foldl_maxQ_le rest x).2 _ hc

/-! ### Slice assignment -/

lemma npSliceAssign_ok (row vals newRow : Row) (s : ℕ)
    (hvals : vals.length = 4) (h : npSliceAssign row s (s + 4) vals = some newRow) :
    s + 4 ≤ row.length ∧ newRow.length = row.length ∧
      ∀ j, j < row.length →
        newRow.getD j 0 = if s ≤ j ∧ j < s + 4 then vals.getD (j - s) 0 else row.getD j 0 := by
  simp only [npSliceAssign] at h
  split at h
  · next hc =>
    rw [hvals] at hc
    have hbound : s + 4 ≤ row.length := by omega
    have hlo : min s row.length = s := by omega
    simp only [hlo] at h
    have hhi : max s (min (s + 4) row.length) = s + 4 := by omega
    simp only [hhi] at h
    refine ⟨hbound, ?_, ?_⟩
    · rw [← Option.some.inj h]
      simp
    · intro j hj
      rw [← Option.some.inj h]
      rw [List.getD_eq_getElem _ _ (by simpa using hj), List.getElem_map, List.getElem_range]
  · next hc1 =>
    split at h
    · next hc2 =>
      rw [hvals] at hc2
      omega
    · exact absurd h (by simp)
  

lemma npSliceAssign_id (row vals : Row) (h : vals.length = row.length) :
    npSliceAssign row 0 row.length vals = some vals := by
  simp only [npSliceAssign]
  have hlo : min 0 row.length = 0 := by omega
  simp only [hlo]
  have hhi : max 0 (min row.length row.length) = row.length := by omega
  simp only [hhi]
  rw [if_pos (by omega : vals.length = row.length - 0)]
  congr 1
  apply List.ext_getElem
  · simp [h]
  · intro j h1 h2
    have hj : j < row.length := by simpa using h1
    simp only [List.getElem_map, List.getElem_range]
    rw [if_pos ⟨Nat.zero_le _, hj⟩, Nat.sub_zero, List.getD_eq_getElem _ _ (by omega)]

lemma sliceFill_length (row : Row) (s t : ℕ) (v : ℚ) :
    (sliceFill row s t v).length = row.length := by
  simp [sliceFill]

lemma sliceFill_getD (row : Row) (s t : ℕ) (v : ℚ) (j : ℕ) (hj : j < row.length) :
    (sliceFill row s t v).getD j 0 = if s ≤ j ∧ j < t then v else row.getD j 0 := by
  rw [sliceFill, List.getD_eq_getElem _ _ (by simpa using hj), List.getElem_map,
    List.getElem_range]

/-! ### The `_compute_targets` fill loop -/

lemma ctStep_ok (targets : Mat) (labels : Row) (acc res : Mat × Mat) (ind : ℕ)
    (h : ctStep targets labels acc ind = Except.ok res) :
    ∃ trow newRow, targets.get? ind = some trow ∧
      npSliceAssign (acc.1.getD ind []) (4 * clsOf labels ind)
        (4 * clsOf labels ind + 4) (trow.take 4) = some newRow ∧
      res = (acc.1.set ind newRow,
        acc.2.set ind (sliceFill (acc.2.getD ind []) (4 * clsOf labels ind)
          (4 * clsOf labels ind + 4) 1)) := by
  rw [ctStep] at h
  split at h
  · exact absurd h (by simp)
  · next trow hget =>
    split at h
    · exact absurd h (by simp)
    · next newRow hassign =>
      exact ⟨trow, newRow, hget, hassign, (Except.ok.inj h).symm⟩

lemma ctLoop_spec (targets : Mat) (labels : Row) : ∀ (inds : List ℕ) (acc res : Mat × Mat),
    inds.Nodup → (∀ i ∈ inds, i < acc.1.length ∧ i < acc.2.length) →
    List.foldlM (ctStep targets labels) acc inds = Except.ok res →
    (res.1.length = acc.1.length ∧ res.2.length = acc.2.length) ∧
      (∀ i, i ∉ inds → res.1.getD i [] = acc.1.getD i [] ∧ res.2.getD i [] = acc.2.getD i []) ∧
      ∀ i ∈ inds, ∃ trow newRow, targets.get? i = some trow ∧
        npSliceAssign (acc.1.getD i []) (4 * clsOf labels i)
          (4 * clsOf labels i + 4) (trow.take 4) = some newRow ∧
        res.1.getD i [] = newRow ∧
        res.2.getD i [] = sliceFill (acc.2.getD i []) (4 * clsOf labels i)
          (4 * clsOf labels i + 4) 1 := by
  intro inds
  induction inds with
  | nil =>
    intro acc res _ _ h
    rw [List.foldlM_nil] at h
    have hres : acc = res := Except.ok.inj h
    subst hres
    exact ⟨⟨rfl, rfl⟩, fun i _ => ⟨rfl, rfl⟩, fun i hi => absurd hi (List.not_mem_nil _)⟩
  | cons a t ih =>
    intro acc res hnd hbound h
    rw [List.foldlM_cons] at h
    cases hstep : ctStep targets labels acc a with
    | error e =>
      rw [hstep] at h
      exact Except.noConfusion h
    | ok acc1 =>
      rw [hstep] at h
      have h' : List.foldlM (ctStep targets labels) acc1 t = Except.ok res := h
      obtain ⟨trow, newRow, hget, hassign, hacc1⟩ := ctStep_ok targets labels acc acc1 a hstep
      have hat : a ∉ t := (List.nodup_cons.mp hnd).1
      have hndt : t.Nodup := (List.nodup_cons.mp hnd).2
      have hlen1 : acc1.1.length = acc.1.length := by rw [hacc1, List.length_set]
      have hlen2 : acc1.2.length = acc.2.length := by rw [hacc1, List.length_set]
      have hboundt : ∀ i ∈ t, i < acc1.1.length ∧ i < acc1.2.length := by
        intro i hi
        rw [hlen1, hlen2]
        exact hbound i (List.mem_cons_of_mem _ hi)
      obtain ⟨⟨hr1, hr2⟩, hnotmem, hmem⟩ := ih acc1 res hndt hboundt h'
      have ha1 : a < acc.1.length := (hbound a (List.mem_cons_self _ _)).1
      have ha2 : a < acc.2.length := (hbound a (List.mem_cons_self _ _)).2
      -- rows of acc1 at an index other than a agree with acc
      have hrow1 : ∀ i, i ≠ a → acc1.1.getD i [] = acc.1.getD i [] := by
        intro i hia
        rw [hacc1]
        exact getD_set_ne _ _ _ (fun hh => hia hh.symm)
      have hrow2 : ∀ i, i ≠ a → acc1.2.getD i [] = acc.2.getD i [] := by
        intro i hia
        rw [hacc1]
        exact getD_set_ne _ _ _ (fun hh => hia hh.symm)
      refine ⟨⟨by rw [hr1, hlen1], by rw [hr2, hlen2]⟩, ?_, ?_⟩
      · intro i hi
        have hia : i ≠ a := fun hh => hi (hh ▸ List.mem_cons_self _ _)
        have hit : i ∉ t := fun hh => hi (List.mem_cons_of_mem _ hh)
        obtain ⟨e1, e2⟩ := hnotmem i hit
        exact ⟨by rw [e1, hrow1 i hia], by rw [e2, hrow2 i hia]⟩
      · intro i hi
        rcases List.mem_cons.mp hi with hia | hit
        · subst hia
          refine ⟨trow, newRow, hget, hassign, ?_, ?_⟩
          · obtain ⟨e1, _⟩ := hnotmem i hat
            rw [e1, hacc1]
            exact getD_set_self _ _ _ _ ha1
          · obtain ⟨_, e2⟩ := hnotmem i hat
            rw [e2, hacc1]
            exact getD_set_self _ _ _ _ ha2
        · have hia : i ≠ a := fun hh => hat (hh ▸ hit)
          obtain ⟨trow', newRow', hget', hassign', he1, he2⟩ := hmem i hit
          rw [hrow1 i hia] at hassign'
          rw [hrow2 i hia] at he2
          exact ⟨trow', newRow', hget', hassign', he1, he2⟩

/-! ### Fancy-index writes and `_unmap` -/

lemma writeRows_length (l : List (ℕ × Row)) : ∀ (init : Mat),
    (writeRows init l).length = init.length := by
  induction l with
  | nil => intro init; rfl
  | cons p t ih =>
    intro init
    have hstep : writeRows init (p :: t) = writeRows (init.set p.1 p.2) t := rfl
    rw [hstep, ih, List.length_set]

lemma writeRows_getD_not_mem (l : List (ℕ × Row)) : ∀ (init : Mat) (j : ℕ),
    (∀ p ∈ l, p.1 ≠ j) → (writeRows init l).getD j [] = init.getD j [] := by
  induction l with
  | nil => intro init j _; rfl
  | cons p t ih =>
    intro init j hne
    have hstep : writeRows init (p :: t) = writeRows (init.set p.1 p.2) t := rfl
    rw [hstep, ih _ j (fun q hq => hne q (List.mem_cons_of_mem _ hq)),
      getD_set_ne _ _ _ (hne p (List.mem_cons_self _ _))]

lemma writeRows_getD_last (l1 l2 : List (ℕ × Row)) (init : Mat) (j : ℕ) (row : Row)
    (hne : ∀ p ∈ l2, p.1 ≠ j) (hj : j < init.length) :
    (writeRows init (l1 ++ (j, row) :: l2)).getD j [] = row := by
  have e1 : writeRows init (l1 ++ (j, row) :: l2)
      = writeRows ((writeRows init l1).set j row) l2 := by
    rw [writeRows, List.foldl_append]
    rfl
  rw [e1, writeRows_getD_not_mem l2 _ j hne,
    getD_set_self _ _ _ _ (by rw [writeRows_length]; exact hj)]

lemma foldl_setRow_length (inds : List ℕ) (d0 : Row) : ∀ (init : Mat),
    (inds.foldl (fun r i => r.set i d0) init).length = init.length := by
  induction inds with
  | nil => intro init; rfl
  | cons a t ih => intro init; rw [List.foldl_cons, ih, List.length_set]

lemma foldl_setRow_getD_not_mem (inds : List ℕ) (d0 : Row) : ∀ (init : Mat) (j : ℕ),
    j ∉ inds → (inds.foldl (fun r i => r.set i d0) init).getD j [] = init.getD j [] := by
  induction inds with
  | nil => intro init j _; rfl
  | cons a t ih =>
    intro init j hj
    rw [List.foldl_cons, ih _ j (fun hh => hj (List.mem_cons_of_mem _ hh)),
      getD_set_ne _ _ _ (fun hh => hj (by rw [← hh]; exact List.mem_cons_self _ _))]

lemma unmap_ok_rows (data : Mat) (count : ℕ) (inds : List ℕ) (fill : ℚ) (ret : Mat)
    (h : _unmap data count inds fill = Except.ok ret) :
    ret.length = count ∧
      ∀ j, j < count → j ∉ inds →
        ret.getD j [] = List.replicate (data.headD []).length fill := by
  simp only [_unmap] at h
  split at h
  · split at h
    · next hlen =>
      have hret : writeRows (List.replicate count
          (List.replicate (data.headD []).length fill)) (inds.zip data) = ret :=
        Except.ok.inj h
      constructor
      · rw [← hret, writeRows_length, List.length_replicate]
      · intro j hj hnot
        rw [← hret, writeRows_getD_not_mem _ _ j
          (fun p hp hc => hnot (hc ▸ (List.of_mem_zip hp).1)),
          getD_replicate _ _ hj]
    · split at h
      · next hone =>
        have hret : inds.foldl (fun r i => r.set i (data.headD []))
            (List.replicate count (List.replicate (data.headD []).length fill)) = ret :=
          Except.ok.inj h
        constructor
        · rw [← hret, foldl_setRow_length, List.length_replicate]
        · intro j hj hnot
          rw [← hret, foldl_setRow_getD_not_mem _ _ _ j hnot, getD_replicate _ _ hj]
      · exact Except.noConfusion h
  · exact Except.noConfusion h

lemma unmap_ok_of_lengths (data : Mat) (count : ℕ) (inds : List ℕ) (fill : ℚ)
    (hall : ∀ i ∈ inds, i < count) (hlen : inds.length = data.length) :
    _unmap data count inds fill = Except.ok
      (writeRows (List.replicate count (List.replicate (data.headD []).length fill))
        (inds.zip data)) := by
  simp only [_unmap]
  rw [if_pos hall, if_pos hlen]

/-! ### `mapM` over `Except` -/

lemma mapM_ok_spec (f : ℕ → Except PyErr Row) : ∀ (xs : List ℕ) (ys : List Row),
    xs.mapM f = Except.ok ys →
    ys.length = xs.length ∧
      ∀ k, k < xs.length → ∃ y, f (xs.getD k 0) = Except.ok y ∧ ys.getD k [] = y := by
  intro xs
  induction xs with
  | nil =>
    intro ys h
    rw [List.mapM_nil] at h
    have hys : ([] : List Row) = ys := Except.ok.inj h
    subst hys
    exact ⟨rfl, fun k hk => absurd hk (by simp)⟩
  | cons a t ih =>
    intro ys h
    rw [List.mapM_cons] at h
    cases hfa : f a with
    | error e => rw [hfa] at h; exact Except.noConfusion h
    | ok y =>
      rw [hfa] at h
      cases hrest : t.mapM f with
      | error e => rw [hrest] at h; exact Except.noConfusion h
      | ok ys' =>
        rw [hrest] at h
        have hys : (y :: ys' : List Row) = ys := Except.ok.inj h
        subst hys
        obtain ⟨hl, hk⟩ := ih ys' hrest
        refine ⟨by simp [hl], ?_⟩
        intro k hkk
        cases k with
        | zero => exact ⟨y, hfa, rfl⟩
        | succ k' =>
          obtain ⟨y', hy1, hy2⟩ := hk k' (by simpa using hkk)
          exact ⟨y', hy1, hy2⟩

/-! ### `_compute_targets` success characterization -/

lemma compute_targets_ok (bt : Row → Row → Row) (ex_rois gt_rois : Mat) (labels : Row)
    (nc : ℕ) (tgs ws : Mat)
    (h : _compute_targets bt ex_rois gt_rois labels nc = Except.ok (tgs, ws)) :
    ex_rois.length = gt_rois.length ∧
    tgs.length = labels.length ∧ ws.length = labels.length ∧
    (∀ i, i < labels.length → ¬ (0 < labels.getD i 0) →
      tgs.getD i [] = List.replicate (4 * nc) 0 ∧
      ws.getD i [] = List.replicate (4 * nc) 0) ∧
    ∀ i, i < labels.length → 0 < labels.getD i 0 →
      ∃ trow newRow,
        ((ex_rois.zip gt_rois).map fun p => bt p.1 p.2).get? i = some trow ∧
        npSliceAssign (List.replicate (4 * nc) 0) (4 * clsOf labels i)
          (4 * clsOf labels i + 4) (trow.take 4) = some newRow ∧
        tgs.getD i [] = newRow ∧
        ws.getD i [] = sliceFill (List.replicate (4 * nc) 0) (4 * clsOf labels i)
          (4 * clsOf labels i + 4) 1 := by
  simp only [_compute_targets] at h
  split at h
  · next hassert =>
    have hnd : (npWhere (fun q => decide (0 < q)) labels).Nodup := npWhere_nodup _ _
    have hbound : ∀ i ∈ npWhere (fun q => decide (0 < q)) labels,
        i < (List.replicate labels.length (List.replicate (4 * nc) (0 : ℚ))).length ∧
        i < (List.replicate labels.length (List.replicate (4 * nc) (0 : ℚ))).length := by
      intro i hi
      rw [List.length_replicate]
      exact ⟨(mem_npWhere.mp hi).1, (mem_npWhere.mp hi).1⟩
    obtain ⟨⟨hl1, hl2⟩, hnm, hm⟩ := ctLoop_spec _ labels _ _ (tgs, ws) hnd hbound h
    refine ⟨hassert.1, by simpa using hl1, by simpa using hl2, ?_, ?_⟩
    · intro i hi hpos
      have hnotin : i ∉ npWhere (fun q => decide (0 < q)) labels := fun hc =>
        hpos (by simpa using (mem_npWhere.mp hc).2)
      obtain ⟨e1, e2⟩ := hnm i hnotin
      constructor
      · rw [e1]; exact getD_replicate _ _ hi
      · rw [e2]; exact getD_replicate _ _ hi
    · intro i hi hpos
      have hin : i ∈ npWhere (fun q => decide (0 < q)) labels :=
        mem_npWhere.mpr ⟨hi, by simpa using hpos⟩
      obtain ⟨trow, newRow, hget, hassign, he1, he2⟩ := hm i hin
      rw [getD_replicate _ _ hi] at hassign
      rw [getD_replicate _ _ hi] at he2
      exact ⟨trow, newRow, hget, hassign, he1, he2⟩
  · exact Except.noConfusion h

/-! ### The matcher's intermediate arrays -/

lemma length_overlapsOf (iou : Row → Row → ℚ) (gt_boxes rois : Mat) :
    (overlapsOf iou gt_boxes rois).length = rois.length := by
  simp [overlapsOf]

lemma length_gtAssignmentOf (iou : Row → Row → ℚ) (gt_boxes rois : Mat) :
    (gtAssignmentOf iou gt_boxes rois).length = rois.length := by
  simp [gtAssignmentOf, length_overlapsOf]

lemma length_maxOverlapsOf (iou : Row → Row → ℚ) (gt_boxes rois : Mat) :
    (maxOverlapsOf iou gt_boxes rois).length = rois.length := by
  simp [maxOverlapsOf]

lemma length_rawLabelsOf (iou : Row → Row → ℚ) (gt_boxes rois : Mat) :
    (rawLabelsOf iou gt_boxes rois).length = rois.length := by
  simp [rawLabelsOf, length_gtAssignmentOf]

lemma length_labelsOf (iou : Row → Row → ℚ) (flags : Flags) (gt_boxes rois : Mat) :
    (labelsOf iou flags gt_boxes rois).length = rois.length := by
  rw [labelsOf, foldl_setZero_length, length_rawLabelsOf]

lemma overlapsOf_getD (iou : Row → Row → ℚ) (gt_boxes rois : Mat) {i : ℕ}
    (hi : i < rois.length) :
    (overlapsOf iou gt_boxes rois).getD i [] =
      gt_boxes.map fun g => iou ((rois.getD i []).take 4) (g.take 4) := by
  rw [overlapsOf, getD_map _ _ _ [] _ hi]

lemma overlapsOf_row_length (iou : Row → Row → ℚ) (gt_boxes rois : Mat) {i : ℕ}
    (hi : i < rois.length) :
    ((overlapsOf iou gt_boxes rois).getD i []).length = gt_boxes.length := by
  rw [overlapsOf_getD iou gt_boxes rois hi, List.length_map]

lemma gtAssignmentOf_getD (iou : Row → Row → ℚ) (gt_boxes rois : Mat) {i : ℕ}
    (hi : i < rois.length) :
    (gtAssignmentOf iou gt_boxes rois).getD i 0 =
      npArgmax ((overlapsOf iou gt_boxes rois).getD i []) := by
  rw [gtAssignmentOf, getD_map _ _ _ [] _ (by rw [length_overlapsOf]; exact hi)]

lemma maxOverlapsOf_getD (iou : Row → Row → ℚ) (gt_boxes rois : Mat) {i : ℕ}
    (hi : i < rois.length) :
    (maxOverlapsOf iou gt_boxes rois).getD i 0 =
      ((overlapsOf iou gt_boxes rois).getD i []).getD
        ((gtAssignmentOf iou gt_boxes rois).getD i 0) 0 := by
  rw [maxOverlapsOf, getD_map _ _ _ 0 _ (by simpa using hi), getD_range hi]

lemma rawLabelsOf_getD (iou : Row → Row → ℚ) (gt_boxes rois : Mat) {i : ℕ}
    (hi : i < rois.length) :
    (rawLabelsOf iou gt_boxes rois).getD i 0 =
      (gt_boxes.getD ((gtAssignmentOf iou gt_boxes rois).getD i 0) []).getD 4 0 := by
  rw [rawLabelsOf, getD_map _ _ _ 0 _ (by rw [length_gtAssignmentOf]; exact hi)]

lemma mem_fgIndsOf {iou : Row → Row → ℚ} {flags : Flags} {gt_boxes rois : Mat} {i : ℕ} :
    i ∈ fgIndsOf iou flags gt_boxes rois ↔
      i < rois.length ∧
        flags.fg_threshold ≤ (maxOverlapsOf iou gt_boxes rois).getD i 0 := by
  rw [fgIndsOf, mem_npWhere, length_maxOverlapsOf]
  simp

lemma mem_bgIndsOf {iou : Row → Row → ℚ} {flags : Flags} {gt_boxes rois : Mat} {i : ℕ} :
    i ∈ bgIndsOf iou flags gt_boxes rois ↔
      i < rois.length ∧
        (maxOverlapsOf iou gt_boxes rois).getD i 0 < flags.bg_threshold := by
  rw [bgIndsOf, mem_npWhere, length_maxOverlapsOf]
  simp

lemma labelsOf_getD (iou : Row → Row → ℚ) (flags : Flags) (gt_boxes rois : Mat) {i : ℕ}
    (hi : i < rois.length) :
    (labelsOf iou flags gt_boxes rois).getD i 0 =
      if (maxOverlapsOf iou gt_boxes rois).getD i 0 < flags.bg_threshold then 0
      else (rawLabelsOf iou gt_boxes rois).getD i 0 := by
  rw [labelsOf, foldl_setZero_getD, length_rawLabelsOf]
  by_cases hb : (maxOverlapsOf iou gt_boxes rois).getD i 0 < flags.bg_threshold
  · rw [if_pos ⟨mem_bgIndsOf.mpr ⟨hi, hb⟩, hi⟩, if_pos hb]
  · rw [if_neg (fun hc => hb (mem_bgIndsOf.mp hc.1).2), if_neg hb]

lemma dead_zone_not_kept (iou : Row → Row → ℚ) (flags : Flags) (gt_boxes rois : Mat)
    (fgDraw bgDraw : List ℕ) (i : ℕ)
    (hfg : ∀ x ∈ fgDraw, x ∈ fgIndsOf iou flags gt_boxes rois)
    (hbg : ∀ x ∈ bgDraw, x ∈ bgIndsOf iou flags gt_boxes rois)
    (h1 : flags.bg_threshold ≤ (maxOverlapsOf iou gt_boxes rois).getD i 0)
    (h2 : (maxOverlapsOf iou gt_boxes rois).getD i 0 < flags.fg_threshold) :
    i ∉ keepIndsOf iou flags gt_boxes rois fgDraw bgDraw := by
  intro hmem
  rcases List.mem_append.mp hmem with hm | hm
  · have hin : i ∈ fgIndsOf iou flags gt_boxes rois := by
      rw [keptFgOf] at hm
      split at hm
      · exact hfg i hm
      · exact hm
    exact absurd (mem_fgIndsOf.mp hin).2 (not_le.mpr h2)
  · have hin : i ∈ bgIndsOf iou flags gt_boxes rois := by
      rw [keptBgOf] at hm
      split at hm
      · exact hbg i hm
      · exact hm
    exact absurd (mem_bgIndsOf.mp hin).2 (not_lt.mpr h1)

lemma encode_ok (iou : Row → Row → ℚ) (bt : Row → Row → Row) (flags : Flags)
    (fgDraw bgDraw : List ℕ) (gt_boxes rois : Mat) (nc : ℕ)
    (out : Row × Mat × Mat × Mat)
    (h : encode iou bt flags fgDraw bgDraw gt_boxes rois nc = Except.ok out) :
    gt_boxes.length ≠ 0 ∧
    out.1 = labelsOf iou flags gt_boxes rois ∧
    out.2.1 = rois ∧
    ∃ tgs ws,
      _compute_targets bt
        ((keepIndsOf iou flags gt_boxes rois fgDraw bgDraw).map fun i =>
          (rois.getD i []).take 4)
        ((keepIndsOf iou flags gt_boxes rois fgDraw bgDraw).map fun i =>
          (gt_boxes.getD ((gtAssignmentOf iou gt_boxes rois).getD i 0) []).take 4)
        (labelsOf iou flags gt_boxes rois) nc = Except.ok (tgs, ws) ∧
      _unmap tgs rois.length (keepIndsOf iou flags gt_boxes rois fgDraw bgDraw) 0
        = Except.ok out.2.2.1 ∧
      _unmap ws rois.length (keepIndsOf iou flags gt_boxes rois fgDraw bgDraw) 0
        = Except.ok out.2.2.2 := by
  obtain ⟨l', r', t', w'⟩ := out
  simp only [encode] at h
  split at h
  · exact Except.noConfusion h
  · next hg =>
    split at h
    · exact Except.noConfusion h
    · split at h
      · exact Except.noConfusion h
      · split at h
        · exact Except.noConfusion h
        · next tgs ws hct =>
          split at h
          · exact Except.noConfusion h
          · next tu hu1 =>
            split at h
            · exact Except.noConfusion h
            · next wu hu2 =>
              have hinj := Except.ok.inj h
              simp only [Prod.mk.injEq] at hinj
              obtain ⟨e1, e2, e3, e4⟩ := hinj
              subst e1
              subst e2
              subst e3
              subst e4
              exact ⟨hg, rfl, rfl, tgs, ws, hct, hu1, hu2⟩

lemma npSliceAssign_length (row vals newRow : Row) (s t : ℕ)
    (h : npSliceAssign row s t vals = some newRow) : newRow.length = row.length := by
  simp only [npSliceAssign] at h
  split at h
  · rw [← Option.some.inj h]
    simp
  · split at h
    · rw [← Option.some.inj h]
      simp
    · exact Option.noConfusion h

lemma zipMap_getD (f : Row → Row → Row) (xs ys : Mat) (i : ℕ)
    (h1 : i < xs.length) (h2 : i < ys.length) :
    ((xs.zip ys).map fun p => f p.1 p.2).getD i [] = f (xs.getD i []) (ys.getD i []) := by
  have hz : i < ((xs.zip ys).map fun p => f p.1 p.2).length := by
    rw [List.length_map, List.length_zip]
    omega
  rw [List.getD_eq_getElem _ _ hz, List.getElem_map, List.getElem_zip,
    List.getD_eq_getElem _ _ h1, List.getD_eq_getElem _ _ h2]

lemma targets_get? (f : Row → Row → Row) (xs ys : Mat) (i : ℕ)
    (h1 : i < xs.length) (h2 : i < ys.length) :
    ((xs.zip ys).map fun p => f p.1 p.2).get? i
      = some (f (xs.getD i []) (ys.getD i [])) := by
  have hz : i < ((xs.zip ys).map fun p => f p.1 p.2).length := by
    rw [List.length_map, List.length_zip]
    omega
  rw [List.get?_eq_getElem?, List.getElem?_eq_getElem hz, List.getElem_map, List.getElem_zip,
    List.getD_eq_getElem _ _ h1, List.getD_eq_getElem _ _ h2]

lemma clsOf_natCast (labels : Row) (i c : ℕ) (hc : labels.getD i 0 = (c : ℚ)) :
    clsOf labels i = c := by
  rw [clsOf, hc, truncInt_natCast]
  simp

/-! ### Claim theorems -/

/-- C2 (amended): a row-count mismatch between the matched proposal array and
the matched ground-truth array is rejected by the leading assertion of
`_compute_targets` (assert-and-abort) before any target is computed.  The
length of the labels array is NOT part of the assertion — see
`C2_counterexample` for a mismatched labels array that produces a result. -/
theorem C2_box_rows_asserted (bt : Row → Row → Row) (ex_rois gt_rois : Mat)
    (labels : Row) (nc : ℕ) (h : ex_rois.length ≠ gt_rois.length) :
    _compute_targets bt ex_rois gt_rois labels nc = Except.error PyErr.assertErr := by
  simp only [_compute_targets]
  rw [if_neg (fun hc => h hc.1)]

/-- Witness for `C2_box_rows_asserted` at a concrete mismatched call. -/
theorem C2_box_rows_asserted_witness :
    ([[(0:ℚ),0,10,10]] : Mat).length ≠ ([] : Mat).length ∧
    _compute_targets btEx [[0,0,10,10]] [] [1] 2 = Except.error PyErr.assertErr :=
  ⟨by decide, C2_box_rows_asserted btEx [[0,0,10,10]] [] [1] 2 (by decide)⟩

/-- C2 counterexample: the claim says ANY row-count mismatch among the three
inputs (including the labels array) fails the assertion, but a labels array
of length 2 passed with 1-row box arrays passes the assertion and produces a
result. -/
theorem C2_counterexample :
    ([0, 0] : Row).length ≠ ([[(0:ℚ),0,10,10]] : Mat).length ∧
    _compute_targets btEx [[0,0,10,10]] [[5,5,10,10]] [0, 0] 2 =
      Except.ok (List.replicate 2 (List.replicate 8 0),
        List.replicate 2 (List.replicate 8 0)) :=
  ⟨by decide, by decide⟩

/-- C3: whenever `_compute_targets` returns, both returned arrays have
exactly `len(labels)` rows — the row count comes from the labels argument —
and `4 * num_classes` columns, even if `len(labels)` differs from the
number of matched box rows. -/
theorem C3_rows_follow_labels (bt : Row → Row → Row) (ex_rois gt_rois : Mat)
    (labels : Row) (nc : ℕ) (tgs ws : Mat)
    (h : _compute_targets bt ex_rois gt_rois labels nc = Except.ok (tgs, ws)) :
    tgs.length = labels.length ∧ ws.length = labels.length ∧
      (∀ r ∈ tgs, r.length = 4 * nc) ∧ ∀ r ∈ ws, r.length = 4 * nc := by
  obtain ⟨_, hl1, hl2, hzero, hpos⟩ := compute_targets_ok bt ex_rois gt_rois labels nc tgs ws h
  have hrow : ∀ i, i < labels.length →
      (tgs.getD i []).length = 4 * nc ∧ (ws.getD i []).length = 4 * nc := by
    intro i hi
    by_cases hp : 0 < labels.getD i 0
    · obtain ⟨trow, newRow, _, hassign, he1, he2⟩ := hpos i hi hp
      constructor
      · rw [he1, npSliceAssign_length _ _ _ _ _ hassign, List.length_replicate]
      · rw [he2, sliceFill_length, List.length_replicate]
    · obtain ⟨e1, e2⟩ := hzero i hi hp
      rw [e1, e2, List.length_replicate]
      exact ⟨rfl, rfl⟩
  refine ⟨hl1, hl2, ?_, ?_⟩
  · intro r hr
    obtain ⟨n, hn, he⟩ := List.mem_iff_getElem.mp hr
    have hgd : tgs.getD n [] = r := by rw [List.getD_eq_getElem _ _ hn, he]
    rw [← hgd]
    exact (hrow n (by rw [← hl1]; exact hn)).1
  · intro r hr
    obtain ⟨n, hn, he⟩ := List.mem_iff_getElem.mp hr
    have hgd : ws.getD n [] = r := by rw [List.getD_eq_getElem _ _ hn, he]
    rw [← hgd]
    exact (hrow n (by rw [← hl2]; exact hn)).2

unseal Rat.mul Rat.add Rat.sub Rat.inv in
/-- Witness for `C3_rows_follow_labels`: a call whose labels array is longer
than the single-row matched box arrays still returns, with 2 rows and 8
columns. -/
theorem C3_rows_follow_labels_witness :
    ([[(0:ℚ),0,0,0,5,5,0,0],[0,0,0,0,0,0,0,0]] : Mat).length = ([1, 0] : Row).length ∧
    ([[(0:ℚ),0,0,0,1,1,1,1],[0,0,0,0,0,0,0,0]] : Mat).length = ([1, 0] : Row).length ∧
    (∀ r ∈ ([[(0:ℚ),0,0,0,5,5,0,0],[0,0,0,0,0,0,0,0]] : Mat), r.length = 4 * 2) ∧
    ∀ r ∈ ([[(0:ℚ),0,0,0,1,1,1,1],[0,0,0,0,0,0,0,0]] : Mat), r.length = 4 * 2 :=
  C3_rows_follow_labels btEx [[0,0,10,10]] [[5,5,10,10]] [1, 0] 2 _ _ (by decide)

/-- C7: for a call to `_compute_targets` satisfying the row-count
precondition, a row whose label is `c > 0` gets the delegated 4-D delta of
its matched (proposal, ground-truth) pair written exactly in columns
`[4c, 4c+4)` of its targets row (zeros elsewhere), and its weights row is 1
exactly on those columns and 0 elsewhere; a row whose label is 0 is
all-zero in both arrays. -/
theorem C7_class_slotting (bt : Row → Row → Row) (ex_rois gt_rois : Mat)
    (labels : Row) (nc : ℕ) (tgs ws : Mat) (i c : ℕ)
    (hpre1 : ex_rois.length = labels.length) (hpre2 : gt_rois.length = labels.length)
    (hbt : ∀ a b, (bt a b).length = 4)
    (h : _compute_targets bt ex_rois gt_rois labels nc = Except.ok (tgs, ws))
    (hi : i < labels.length) (hc : labels.getD i 0 = (c : ℚ)) :
    (0 < c →
      4 * c + 4 ≤ 4 * nc ∧
      (∀ j, j < 4 * nc → (tgs.getD i []).getD j 0 =
        if 4 * c ≤ j ∧ j < 4 * c + 4 then
          (bt (ex_rois.getD i []) (gt_rois.getD i [])).getD (j - 4 * c) 0 else 0) ∧
      ∀ j, j < 4 * nc → (ws.getD i []).getD j 0 =
        if 4 * c ≤ j ∧ j < 4 * c + 4 then 1 else 0) ∧
    (c = 0 →
      tgs.getD i [] = List.replicate (4 * nc) 0 ∧
      ws.getD i [] = List.replicate (4 * nc) 0) := by
  obtain ⟨_, hl1, hl2, hzero, hpos⟩ := compute_targets_ok bt ex_rois gt_rois labels nc tgs ws h
  constructor
  · intro hcpos
    have hp : 0 < labels.getD i 0 := by
      rw [hc]
      exact_mod_cast hcpos
    obtain ⟨trow, newRow, hget, hassign, he1, he2⟩ := hpos i hi hp
    have hcls : clsOf labels i = c := clsOf_natCast labels i c hc
    rw [hcls] at hassign he2
    have htg := targets_get? bt ex_rois gt_rois i (by omega) (by omega)
    rw [hget] at htg
    have htrow : trow = bt (ex_rois.getD i []) (gt_rois.getD i []) := Option.some.inj htg
    have htlen : trow.length = 4 := by
      rw [htrow]
      exact hbt _ _
    have htake : trow.take 4 = trow := List.take_of_length_le (le_of_eq htlen)
    rw [htake] at hassign
    obtain ⟨hbound, _, hchar⟩ :=
      npSliceAssign_ok (List.replicate (4 * nc) 0) trow newRow (4 * c) htlen hassign
    rw [List.length_replicate] at hbound
    refine ⟨hbound, ?_, ?_⟩
    · intro j hj
      rw [he1, hchar j (by rw [List.length_replicate]; exact hj), htrow,
        getD_replicate _ _ hj]
    · intro j hj
      rw [he2, sliceFill_getD _ _ _ _ j (by rw [List.length_replicate]; exact hj),
        getD_replicate _ _ hj]
  · intro hc0
    exact hzero i hi (by rw [hc, hc0]; simp)

unseal Rat.mul Rat.add Rat.sub Rat.inv in
/-- Witness for `C7_class_slotting`: concrete call with labels `[1, 0]`,
one matched pair and two classes; row 0 (label 1) gets its delta in columns
[4, 8) and weights 1 there, row 1 (label 0) stays all-zero. -/
theorem C7_class_slotting_witness :
    (0 < 1 →
      4 * 1 + 4 ≤ 4 * 2 ∧
      (∀ j, j < 4 * 2 →
        ((([[(0:ℚ),0,0,0,5,5,0,0],[0,0,0,0,0,0,0,0]] : Mat)).getD 0 []).getD j 0 =
          if 4 * 1 ≤ j ∧ j < 4 * 1 + 4 then
            (btEx (([[(0:ℚ),0,10,10],[20,20,30,30]] : Mat).getD 0 [])
              (([[(5:ℚ),5,10,10],[20,20,30,30]] : Mat).getD 0 [])).getD (j - 4 * 1) 0
          else 0) ∧
      ∀ j, j < 4 * 2 →
        ((([[(0:ℚ),0,0,0,1,1,1,1],[0,0,0,0,0,0,0,0]] : Mat)).getD 0 []).getD j 0 =
          if 4 * 1 ≤ j ∧ j < 4 * 1 + 4 then 1 else 0) ∧
    (1 = 0 →
      ([[(0:ℚ),0,0,0,5,5,0,0],[0,0,0,0,0,0,0,0]] : Mat).getD 0 []
        = List.replicate (4 * 2) 0 ∧
      ([[(0:ℚ),0,0,0,1,1,1,1],[0,0,0,0,0,0,0,0]] : Mat).getD 0 []
        = List.replicate (4 * 2) 0) :=
  C7_class_slotting btEx [[0,0,10,10],[20,20,30,30]] [[5,5,10,10],[20,20,30,30]] [1, 0] 2
    [[0,0,0,0,5,5,0,0],[0,0,0,0,0,0,0,0]] [[0,0,0,0,1,1,1,1],[0,0,0,0,0,0,0,0]] 0 1
    (by decide) (by decide) (fun a b => rfl) (by decide) (by decide) (by decide)

/-- C8: `_unmap(data, count, indices, fill)` with indices drawn from
`[0, count)` and as many indices as data rows returns a `count`-row array
matching `data`'s trailing shape; a row whose index does not occur in
`indices` is the fill sentinel in every entry; a row whose index occurs
receives the data row of that occurrence, last write winning on duplicates;
the indices need not be sorted or contiguous. -/
theorem C8_unmap_scatter (data : Mat) (count : ℕ) (inds : List ℕ) (fill : ℚ)
    (hall : ∀ i ∈ inds, i < count) (hlen : inds.length = data.length) :
    ∃ ret, _unmap data count inds fill = Except.ok ret ∧
      ret.length = count ∧
      (∀ j, j < count → j ∉ inds →
        ret.getD j [] = List.replicate (data.headD []).length fill) ∧
      ∀ k, k < inds.length →
        (∀ k', k < k' → k' < inds.length → inds.getD k' 0 ≠ inds.getD k 0) →
        ret.getD (inds.getD k 0) [] = data.getD k [] := by
  have hok := unmap_ok_of_lengths data count inds fill hall hlen
  refine ⟨_, hok, (unmap_ok_rows data count inds fill _ hok).1,
    (unmap_ok_rows data count inds fill _ hok).2, ?_⟩
  intro k hk hlast
  have hzlen : (inds.zip data).length = inds.length := by
    rw [List.length_zip, hlen]
    omega
  have hkz : k < (inds.zip data).length := by omega
  have hzk : (inds.zip data)[k] = (inds.getD k 0, data.getD k []) := by
    rw [List.getElem_zip, List.getD_eq_getElem _ _ (by omega : k < inds.length),
      List.getD_eq_getElem _ _ (by omega : k < data.length)]
  have hdecomp : inds.zip data = (inds.zip data).take k ++
      (inds.getD k 0, data.getD k []) :: (inds.zip data).drop (k + 1) := by
    conv_lhs => rw [← List.take_append_drop k (inds.zip data)]
    rw [List.drop_eq_getElem_cons hkz, hzk]
  have hne : ∀ p ∈ (inds.zip data).drop (k + 1), p.1 ≠ inds.getD k 0 := by
    intro p hp
    obtain ⟨m, hm, he⟩ := List.mem_iff_getElem.mp hp
    have hmlen : k + 1 + m < (inds.zip data).length := by
      rw [List.length_drop] at hm
      omega
    have hpe : p = (inds.zip data)[k + 1 + m] := by
      rw [← he, List.getElem_drop]
    have hkk : k + 1 + m < inds.length := by omega
    rw [hpe, List.getElem_zip]
    intro hcontra
    apply hlast (k + 1 + m) (by omega) hkk
    rw [List.getD_eq_getElem _ _ hkk]
    exact hcontra
  have hjlt : inds.getD k 0 < count := by
    apply hall
    rw [List.getD_eq_getElem _ _ (by omega : k < inds.length)]
    exact List.getElem_mem _
  rw [hdecomp, writeRows_getD_last _ _ _ _ _ hne (by simpa using hjlt)]

/-- Witness for `C8_unmap_scatter`: indices `[2, 0, 2]` with a duplicate;
row 2 takes the LAST data row written to it, row 0 its own, rows 1 and 3
stay at the fill sentinel. -/
theorem C8_unmap_scatter_witness :
    (∀ i ∈ ([2, 0, 2] : List ℕ), i < 4) ∧
    ∃ ret, _unmap [[1,2],[3,4],[5,6]] 4 [2, 0, 2] 0 = Except.ok ret ∧
      ret.length = 4 ∧
      (∀ j, j < 4 → j ∉ ([2, 0, 2] : List ℕ) →
        ret.getD j [] = List.replicate (([[(1:ℚ),2],[3,4],[5,6]] : Mat).headD []).length 0) ∧
      ∀ k, k < ([2, 0, 2] : List ℕ).length →
        (∀ k', k < k' → k' < ([2, 0, 2] : List ℕ).length →
          ([2, 0, 2] : List ℕ).getD k' 0 ≠ ([2, 0, 2] : List ℕ).getD k 0) →
        ret.getD (([2, 0, 2] : List ℕ).getD k 0) []
          = ([[(1:ℚ),2],[3,4],[5,6]] : Mat).getD k [] :=
  ⟨by decide, C8_unmap_scatter [[1,2],[3,4],[5,6]] 4 [2, 0, 2] 0 (by decide) (by decide)⟩

/-- C9: for every returning call to `decode` and proposal `i`, the predicted
class is the first-max argmax of the raw score row, the confidence is that
row's score at the predicted class (its maximum), and the final box is the
box-clipper applied to exactly the 4-column slice of the decoded boxes row
starting at `4 * predicted_class` — every other class slice is discarded. -/
theorem C9_decode_selection (btInv : Row → Row → Row) (clip : Row → ℚ → ℚ → Row)
    (boxes scores rois : Mat) (ih iw : ℚ) (i nc : ℕ)
    (hb : boxes.length = rois.length) (hs : scores.length = rois.length)
    (hi : i < rois.length) (hnc : 0 < nc) (hsc : (scores.getD i []).length = nc)
    (hbi : (btInv (rois.getD i []) (boxes.getD i [])).length = 4 * nc)
    (out : Mat × List ℕ × Row)
    (hok : decode btInv clip boxes scores rois ih iw = Except.ok out) :
    out.2.1.getD i 0 < nc ∧
    (∀ j, j < nc → (scores.getD i []).getD j 0 ≤
      (scores.getD i []).getD (out.2.1.getD i 0) 0) ∧
    (∀ j, j < out.2.1.getD i 0 →
      (scores.getD i []).getD j 0 < (scores.getD i []).getD (out.2.1.getD i 0) 0) ∧
    out.2.2.getD i 0 = (scores.getD i []).getD (out.2.1.getD i 0) 0 ∧
    out.1.getD i [] =
      clip (((btInv (rois.getD i []) (boxes.getD i [])).drop
        (out.2.1.getD i 0 * 4)).take 4) ih iw ∧
    (((btInv (rois.getD i []) (boxes.getD i [])).drop
      (out.2.1.getD i 0 * 4)).take 4).length = 4 ∧
    ∀ j, j < 4 →
      (((btInv (rois.getD i []) (boxes.getD i [])).drop
        (out.2.1.getD i 0 * 4)).take 4).getD j 0
        = (btInv (rois.getD i []) (boxes.getD i [])).getD (out.2.1.getD i 0 * 4 + j) 0 := by
  obtain ⟨fb, cls, conf⟩ := out
  simp only [decode] at hok
  split at hok
  · exact Except.noConfusion hok
  · split at hok
    · exact Except.noConfusion hok
    · next final hmap =>
      have hinj := Except.ok.inj hok
      simp only [Prod.mk.injEq] at hinj
      obtain ⟨e1, e2, e3⟩ := hinj
      subst e1
      subst e2
      subst e3
      have hsi : i < scores.length := by omega
      have hcls : (scores.map npArgmax).getD i 0 = npArgmax (scores.getD i []) :=
        getD_map npArgmax scores i [] 0 hsi
      have hsnz : 0 < (scores.getD i []).length := by rw [hsc]; exact hnc
      obtain ⟨halt, hale, hafirst⟩ := npArgmax_isFirstMax (scores.getD i []) hsnz
      have hclt : npArgmax (scores.getD i []) < nc := by rw [← hsc]; exact halt
      have hn : ((rois.zip boxes).map fun p => btInv p.1 p.2).length = rois.length := by
        rw [List.length_map, List.length_zip]
        omega
      obtain ⟨hfl, hfk⟩ := mapM_ok_spec _ _ final hmap
      have hrl : i < (List.range ((rois.zip boxes).map fun p => btInv p.1 p.2).length).length := by
        rw [List.length_range, hn]
        exact hi
      have hin : i < ((rois.zip boxes).map fun p => btInv p.1 p.2).length := by
        rw [hn]
        exact hi
      obtain ⟨y, hy1, hy2⟩ := hfk i hrl
      rw [getD_range hin] at hy1
      have hdrow : ((rois.zip boxes).map fun p => btInv p.1 p.2).getD i []
          = btInv (rois.getD i []) (boxes.getD i []) :=
        zipMap_getD btInv rois boxes i hi (by omega)
      rw [hdrow, hcls] at hy1
      have hrhslen : (((btInv (rois.getD i []) (boxes.getD i [])).drop
          (npArgmax (scores.getD i []) * 4)).take 4).length = 4 := by
        rw [List.length_take, List.length_drop, hbi]
        omega
      have hid := npSliceAssign_id (List.replicate 4 (0 : ℚ))
        (((btInv (rois.getD i []) (boxes.getD i [])).drop
          (npArgmax (scores.getD i []) * 4)).take 4) (by simpa using hrhslen)
      rw [List.length_replicate] at hid
      rw [decodeFinalRow, hid] at hy1
      have hyval : y = ((btInv (rois.getD i []) (boxes.getD i [])).drop
          (npArgmax (scores.getD i []) * 4)).take 4 := (Except.ok.inj hy1).symm
      have hfinlen : i < final.length := by
        rw [hfl, List.length_range, hn]
        exact hi
      have hfb : (final.map fun r => clip r ih iw).getD i [] = clip (final.getD i []) ih iw :=
        getD_map _ final i [] [] hfinlen
      refine ⟨?_, ?_, ?_, ?_, ?_, ?_, ?_⟩
      · rw [hcls]
        exact hclt
      · intro j hj
        rw [hcls]
        exact hale j (by omega)
      · intro j hj
        rw [hcls] at hj ⊢
        exact hafirst j hj
      · have hconf : (scores.map npMax).getD i 0 = npMax (scores.getD i []) :=
          getD_map npMax scores i [] 0 hsi
        rw [hconf, hcls, npMax_eq_argmax _ hsnz]
      · rw [hfb, hy2, hyval, hcls]
      · rw [hcls]
        exact hrhslen
      · intro j hj
        rw [hcls]
        have hj4 : j < (((btInv (rois.getD i []) (boxes.getD i [])).drop
            (npArgmax (scores.getD i []) * 4)).take 4).length := by
          rw [hrhslen]
          exact hj
        rw [List.getD_eq_getElem _ _ hj4, List.getElem_take, List.getElem_drop]
        exact (List.getD_eq_getElem _ _
          (by rw [hbi]; omega :
            npArgmax (scores.getD i []) * 4 + j
              < (btInv (rois.getD i []) (boxes.getD i [])).length)).symm

unseal Rat.mul Rat.add Rat.sub Rat.inv in
/-- Witness for `C9_decode_selection`: one proposal, scores `[1/10, 9/10]`;
class 1 wins, confidence 9/10, and the final box is the clipped second
4-column slice of the decoded row. -/
theorem C9_decode_selection_witness :
    ([1] : List ℕ).getD 0 0 < 2 ∧
    (∀ j, j < 2 → (([[(1:ℚ)/10, 9/10]] : Mat).getD 0 []).getD j 0 ≤
      (([[(1:ℚ)/10, 9/10]] : Mat).getD 0 []).getD (([1] : List ℕ).getD 0 0) 0) ∧
    (∀ j, j < ([1] : List ℕ).getD 0 0 →
      (([[(1:ℚ)/10, 9/10]] : Mat).getD 0 []).getD j 0 <
      (([[(1:ℚ)/10, 9/10]] : Mat).getD 0 []).getD (([1] : List ℕ).getD 0 0) 0) ∧
    ([(9:ℚ)/10] : Row).getD 0 0 =
      (([[(1:ℚ)/10, 9/10]] : Mat).getD 0 []).getD (([1] : List ℕ).getD 0 0) 0 ∧
    ([[(1:ℚ),2,3,4]] : Mat).getD 0 [] =
      clipEx (((btInvEx (([[(10:ℚ),10,50,50]] : Mat).getD 0 [])
        (([[(0:ℚ),0,0,0,1,2,3,4]] : Mat).getD 0 [])).drop
        (([1] : List ℕ).getD 0 0 * 4)).take 4) 100 100 ∧
    (((btInvEx (([[(10:ℚ),10,50,50]] : Mat).getD 0 [])
      (([[(0:ℚ),0,0,0,1,2,3,4]] : Mat).getD 0 [])).drop
      (([1] : List ℕ).getD 0 0 * 4)).take 4).length = 4 ∧
    ∀ j, j < 4 →
      (((btInvEx (([[(10:ℚ),10,50,50]] : Mat).getD 0 [])
        (([[(0:ℚ),0,0,0,1,2,3,4]] : Mat).getD 0 [])).drop
        (([1] : List ℕ).getD 0 0 * 4)).take 4).getD j 0
        = (btInvEx (([[(10:ℚ),10,50,50]] : Mat).getD 0 [])
          (([[(0:ℚ),0,0,0,1,2,3,4]] : Mat).getD 0 [])).getD
          (([1] : List ℕ).getD 0 0 * 4 + j) 0 :=
  C9_decode_selection btInvEx clipEx [[0,0,0,0,1,2,3,4]] [[1/10, 9/10]] [[10,10,50,50]]
    100 100 0 2 (by decide) (by decide) (by decide) (by decide) (by decide) (by decide)
    ([[1,2,3,4]], [1], [9/10]) (by decide)

/-- C4: a proposal whose max-overlap lies in the dead zone
`bg_threshold ≤ max_overlap < fg_threshold` is never placed in the kept
index set (for any draws taken from the eligible sets), and whenever
`encode` returns, that proposal's row of the returned inside-weights array
is all-zero. -/
theorem C4_dead_zone_exclusion (iou : Row → Row → ℚ) (flags : Flags)
    (gt_boxes rois : Mat) (fgDraw bgDraw : List ℕ) (i : ℕ)
    (hfg : ∀ x ∈ fgDraw, x ∈ fgIndsOf iou flags gt_boxes rois)
    (hbg : ∀ x ∈ bgDraw, x ∈ bgIndsOf iou flags gt_boxes rois)
    (hi : i < rois.length)
    (h1 : flags.bg_threshold ≤ (maxOverlapsOf iou gt_boxes rois).getD i 0)
    (h2 : (maxOverlapsOf iou gt_boxes rois).getD i 0 < flags.fg_threshold) :
    i ∉ keepIndsOf iou flags gt_boxes rois fgDraw bgDraw ∧
    ∀ (bt : Row → Row → Row) (nc : ℕ) (out : Row × Mat × Mat × Mat),
      encode iou bt flags fgDraw bgDraw gt_boxes rois nc = Except.ok out →
      ∀ q ∈ out.2.2.2.getD i [], q = 0 := by
  have hnk := dead_zone_not_kept iou flags gt_boxes rois fgDraw bgDraw i hfg hbg h1 h2
  refine ⟨hnk, ?_⟩
  intro bt nc out hok
  obtain ⟨_, _, _, tgs, ws, hct, hu1, hu2⟩ :=
    encode_ok iou bt flags fgDraw bgDraw gt_boxes rois nc out hok
  obtain ⟨_, hrows⟩ := unmap_ok_rows ws rois.length _ 0 _ hu2
  intro q hq
  rw [hrows i hi hnk] at hq
  exact List.eq_of_mem_replicate hq

unseal Rat.mul Rat.add Rat.sub Rat.inv in
/-- Witness for `C4_dead_zone_exclusion`: a single proposal whose IoU with
the only ground-truth box is 1/3 ∈ [1/10, 1/2): it is kept by neither set
and (the call returns here) its weights row is all-zero. -/
theorem C4_dead_zone_exclusion_witness :
    0 ∉ keepIndsOf iouEx flagsEx [[0,0,10,10,0]] [[0,0,10,30]] [] [] ∧
    ∀ (bt : Row → Row → Row) (nc : ℕ) (out : Row × Mat × Mat × Mat),
      encode iouEx bt flagsEx [] [] [[0,0,10,10,0]] [[0,0,10,30]] nc = Except.ok out →
      ∀ q ∈ out.2.2.2.getD 0 [], q = 0 :=
  C4_dead_zone_exclusion iouEx flagsEx [[0,0,10,10,0]] [[0,0,10,30]] [] [] 0
    (by simp) (by simp) (by decide) (by decide) (by decide)

/-- C5: in the labels array returned by `encode`, a proposal with
`max_overlap < bg_threshold` has label 0 (forced on the whole
background-eligible set, independently of sampling), and a proposal with
`max_overlap ≥ bg_threshold` — dead-zone proposals included — keeps the
class field (column 4) of its argmax-assigned ground-truth box, the argmax
breaking ties by lowest ground-truth index. -/
theorem C5_label_assignment (iou : Row → Row → ℚ) (bt : Row → Row → Row) (flags : Flags)
    (fgDraw bgDraw : List ℕ) (gt_boxes rois : Mat) (nc : ℕ) (i : ℕ)
    (out : Row × Mat × Mat × Mat)
    (hok : encode iou bt flags fgDraw bgDraw gt_boxes rois nc = Except.ok out)
    (hi : i < rois.length) :
    ((maxOverlapsOf iou gt_boxes rois).getD i 0 < flags.bg_threshold →
      out.1.getD i 0 = 0) ∧
    (flags.bg_threshold ≤ (maxOverlapsOf iou gt_boxes rois).getD i 0 →
      out.1.getD i 0 =
        (gt_boxes.getD ((gtAssignmentOf iou gt_boxes rois).getD i 0) []).getD 4 0 ∧
      isFirstMax ((overlapsOf iou gt_boxes rois).getD i [])
        ((gtAssignmentOf iou gt_boxes rois).getD i 0)) := by
  obtain ⟨hg, hlab, _⟩ := encode_ok iou bt flags fgDraw bgDraw gt_boxes rois nc out hok
  rw [hlab]
  constructor
  · intro hlt
    rw [labelsOf_getD iou flags gt_boxes rois hi, if_pos hlt]
  · intro hge
    refine ⟨?_, ?_⟩
    · rw [labelsOf_getD iou flags gt_boxes rois hi, if_neg (not_lt.mpr hge),
        rawLabelsOf_getD iou gt_boxes rois hi]
    · rw [gtAssignmentOf_getD iou gt_boxes rois hi]
      apply npArgmax_isFirstMax
      rw [overlapsOf_row_length iou gt_boxes rois hi]
      omega

unseal Rat.mul Rat.add Rat.sub Rat.inv in
/-- Witness for `C5_label_assignment` at the returning single-proposal call:
its overlap 1/3 is at least `bg_threshold = 1/10`, so the returned label is
the class field of ground-truth box 0, which the argmax assigns first-max. -/
theorem C5_label_assignment_witness :
    ((maxOverlapsOf iouEx [[0,0,10,10,0]] [[0,0,10,30]]).getD 0 0 < flagsEx.bg_threshold →
      ([0] : Row).getD 0 0 = 0) ∧
    (flagsEx.bg_threshold ≤ (maxOverlapsOf iouEx [[0,0,10,10,0]] [[0,0,10,30]]).getD 0 0 →
      ([0] : Row).getD 0 0 =
        (([[(0:ℚ),0,10,10,0]] : Mat).getD
          ((gtAssignmentOf iouEx [[0,0,10,10,0]] [[0,0,10,30]]).getD 0 0) []).getD 4 0 ∧
      isFirstMax ((overlapsOf iouEx [[0,0,10,10,0]] [[0,0,10,30]]).getD 0 [])
        ((gtAssignmentOf iouEx [[0,0,10,10,0]] [[0,0,10,30]]).getD 0 0)) :=
  C5_label_assignment iouEx btEx flagsEx [] [] [[0,0,10,10,0]] [[0,0,10,30]] 2 0
    ([0], [[0,0,10,30]], [[0,0,0,0,0,0,0,0]], [[0,0,0,0,0,0,0,0]])
    (by decide) (by decide)

/-- C6: for valid draw sizes, the number of kept foreground indices is at
most `⌊rois_per_image * fg_roi_fraction⌋` and at most the size of the
foreground-eligible set, and kept foreground plus kept background indices
never exceed `rois_per_image` (the fraction being a fraction,
`0 ≤ fg_roi_fraction ≤ 1`). -/
theorem C6_sampling_budget (iou : Row → Row → ℚ) (flags : Flags) (gt_boxes rois : Mat)
    (fgDraw bgDraw : List ℕ)
    (hfrac0 : 0 ≤ flags.fg_roi_fraction) (hfrac1 : flags.fg_roi_fraction ≤ 1)
    (hfgd : fgDraw.length = (fgRoisOf iou flags gt_boxes rois).toNat)
    (hbgd : bgDraw.length = (bgRoisOf iou flags gt_boxes rois).toNat) :
    ((keptFgOf iou flags gt_boxes rois fgDraw).length : ℤ)
      ≤ ⌊(flags.rois_per_image : ℚ) * flags.fg_roi_fraction⌋ ∧
    (keptFgOf iou flags gt_boxes rois fgDraw).length
      ≤ (fgIndsOf iou flags gt_boxes rois).length ∧
    (keptFgOf iou flags gt_boxes rois fgDraw).length
      + (keptBgOf iou flags gt_boxes rois bgDraw).length ≤ flags.rois_per_image := by
  set n := (fgIndsOf iou flags gt_boxes rois).length with hn
  set B : ℚ := (flags.rois_per_image : ℚ) * flags.fg_roi_fraction with hB
  have hB0 : 0 ≤ B := mul_nonneg (by positivity) hfrac0
  have hBr : B ≤ (flags.rois_per_image : ℚ) := by
    calc B ≤ (flags.rois_per_image : ℚ) * 1 :=
          mul_le_mul_of_nonneg_left hfrac1 (by positivity)
      _ = (flags.rois_per_image : ℚ) := mul_one _
  have hfg : fgRoisOf iou flags gt_boxes rois = ⌊minQ (n : ℚ) B⌋ := by
    rw [fgRoisOf]
    exact truncInt_eq_floor (le_minQ (by positivity) hB0)
  have h0 : 0 ≤ fgRoisOf iou flags gt_boxes rois := by
    rw [hfg]
    exact Int.floor_nonneg.mpr (le_minQ (by positivity) hB0)
  have h1 : fgRoisOf iou flags gt_boxes rois ≤ ⌊B⌋ := by
    rw [hfg]
    exact Int.floor_le_floor (minQ_le_right _ _)
  have h2 : fgRoisOf iou flags gt_boxes rois ≤ (n : ℤ) := by
    rw [hfg]
    calc ⌊minQ (n : ℚ) B⌋ ≤ ⌊(n : ℚ)⌋ := Int.floor_le_floor (minQ_le_left _ _)
      _ = (n : ℤ) := Int.floor_natCast n
  have h3 : fgRoisOf iou flags gt_boxes rois ≤ (flags.rois_per_image : ℤ) := by
    rw [hfg]
    calc ⌊minQ (n : ℚ) B⌋ ≤ ⌊B⌋ := Int.floor_le_floor (minQ_le_right _ _)
      _ ≤ ⌊(flags.rois_per_image : ℚ)⌋ := Int.floor_le_floor hBr
      _ = (flags.rois_per_image : ℤ) := Int.floor_natCast _
  have hfl0 : 0 ≤ ⌊B⌋ := Int.floor_nonneg.mpr hB0
  have hkf : (keptFgOf iou flags gt_boxes rois fgDraw).length
      = (fgRoisOf iou flags gt_boxes rois).toNat ∨
      ((keptFgOf iou flags gt_boxes rois fgDraw).length = 0 ∧ n = 0) := by
    rw [keptFgOf]
    by_cases hc : 0 < (fgIndsOf iou flags gt_boxes rois).length
    · rw [if_pos hc]
      exact Or.inl hfgd
    · rw [if_neg hc]
      exact Or.inr ⟨by omega, by omega⟩
  have hkb : (keptBgOf iou flags gt_boxes rois bgDraw).length
      = (bgRoisOf iou flags gt_boxes rois).toNat ∨
      ((keptBgOf iou flags gt_boxes rois bgDraw).length
          = (bgIndsOf iou flags gt_boxes rois).length ∧
        ((bgIndsOf iou flags gt_boxes rois).length = 0 ∨
          ((bgIndsOf iou flags gt_boxes rois).length : ℤ)
            ≤ bgRoisOf iou flags gt_boxes rois)) := by
    rw [keptBgOf]
    by_cases hc : 0 < (bgIndsOf iou flags gt_boxes rois).length ∧
        bgRoisOf iou flags gt_boxes rois < ((bgIndsOf iou flags gt_boxes rois).length : ℤ)
    · rw [if_pos hc]
      exact Or.inl hbgd
    · rw [if_neg hc]
      refine Or.inr ⟨rfl, ?_⟩
      by_cases h0b : (bgIndsOf iou flags gt_boxes rois).length = 0
      · exact Or.inl h0b
      · right
        by_contra hcc
        exact hc ⟨by omega, by omega⟩
  have hbgr : bgRoisOf iou flags gt_boxes rois
      = (flags.rois_per_image : ℤ) - fgRoisOf iou flags gt_boxes rois := rfl
  refine ⟨?_, ?_, ?_⟩
  · rcases hkf with hkf | ⟨hkf, _⟩ <;> omega
  · rcases hkf with hkf | ⟨hkf, hn0⟩ <;> omega
  · rcases hkf with hkf | ⟨hkf, _⟩
    · rcases hkb with hkb | ⟨hkb, hkb2⟩
      · omega
      · rcases hkb2 with hcase | hcase
        · omega
        · omega
    · rcases hkb with hkb | ⟨hkb, hkb2⟩
      · omega
      · rcases hkb2 with hcase | hcase
        · omega
        · omega

unseal Rat.mul Rat.add Rat.sub Rat.inv in
/-- Witness for `C6_sampling_budget`: two foreground-eligible proposals
with a budget of one, one background proposal; one foreground index and the
whole background set are kept, within the budget of 4. -/
theorem C6_sampling_budget_witness :
    ((keptFgOf iouEx flagsEx [[0,0,10,10,1]]
        [[0,0,10,10],[0,0,10,11],[100,100,110,110]] [0]).length : ℤ)
      ≤ ⌊(flagsEx.rois_per_image : ℚ) * flagsEx.fg_roi_fraction⌋ ∧
    (keptFgOf iouEx flagsEx [[0,0,10,10,1]]
        [[0,0,10,10],[0,0,10,11],[100,100,110,110]] [0]).length
      ≤ (fgIndsOf iouEx flagsEx [[0,0,10,10,1]]
        [[0,0,10,10],[0,0,10,11],[100,100,110,110]]).length ∧
    (keptFgOf iouEx flagsEx [[0,0,10,10,1]]
        [[0,0,10,10],[0,0,10,11],[100,100,110,110]] [0]).length
      + (keptBgOf iouEx flagsEx [[0,0,10,10,1]]
        [[0,0,10,10],[0,0,10,11],[100,100,110,110]] [2,2,2]).length
      ≤ flagsEx.rois_per_image :=
  C6_sampling_budget iouEx flagsEx [[0,0,10,10,1]]
    [[0,0,10,10],[0,0,10,11],[100,100,110,110]] [0] [2,2,2]
    (by decide) (by decide) (by decide) (by decide)

unseal Rat.mul Rat.add Rat.sub Rat.inv in
/-- C10 counterexample: the claim says a call with an empty
foreground-eligible set "does not raise an error", but with one dead-zone
proposal (IoU 1/3 against a class-1 ground-truth box) the
foreground-eligible set is empty and `encode` nevertheless raises: the full
`labels` array (not `labels[keep_inds]`) is passed to `_compute_targets`,
whose fill loop then reads `targets[0]` out of range of the 0-row targets
array. -/
theorem C10_counterexample :
    fgIndsOf iouEx flagsEx [[0,0,10,10,1]] [[0,0,10,30]] = [] ∧
    encode iouEx btEx flagsEx [] [] [[0,0,10,10,1]] [[0,0,10,30]] 2
      = Except.error PyErr.indexErr :=
  ⟨by decide, by decide⟩

/-- C10 (amended): if the foreground-eligible set is empty, the SAMPLING
stage raises no error: the foreground count is 0, the foreground draw is
skipped (the draw argument is ignored and the kept foreground set is
empty), the full `rois_per_image` budget becomes the background target
count, and an undersized background-eligible set is kept in full; the call
itself may still fail afterwards, in the target-expansion stage. -/
theorem C10_empty_fg_degrades (iou : Row → Row → ℚ) (flags : Flags) (gt_boxes rois : Mat)
    (fgDraw bgDraw : List ℕ)
    (hfrac : 0 ≤ flags.fg_roi_fraction)
    (hempty : fgIndsOf iou flags gt_boxes rois = []) :
    fgRoisOf iou flags gt_boxes rois = 0 ∧
    keptFgOf iou flags gt_boxes rois fgDraw = [] ∧
    bgRoisOf iou flags gt_boxes rois = (flags.rois_per_image : ℤ) ∧
    (((bgIndsOf iou flags gt_boxes rois).length : ℤ)
        ≤ bgRoisOf iou flags gt_boxes rois →
      keptBgOf iou flags gt_boxes rois bgDraw = bgIndsOf iou flags gt_boxes rois) := by
  have hB0 : 0 ≤ (flags.rois_per_image : ℚ) * flags.fg_roi_fraction :=
    mul_nonneg (by positivity) hfrac
  have hfg0 : fgRoisOf iou flags gt_boxes rois = 0 := by
    rw [fgRoisOf, hempty]
    have hmin : minQ ((List.length ([] : List ℕ) : ℕ) : ℚ)
        ((flags.rois_per_image : ℚ) * flags.fg_roi_fraction) = 0 := by
      rw [minQ]
      simp [hB0]
    rw [hmin]
    decide
  refine ⟨hfg0, ?_, ?_, ?_⟩
  · rw [keptFgOf, hempty]
    simp
  · rw [bgRoisOf, hfg0, sub_zero]
  · intro hle
    rw [keptBgOf, if_neg (fun hc => absurd hle (not_le.mpr hc.2))]

unseal Rat.mul Rat.add Rat.sub Rat.inv in
/-- Witness for `C10_empty_fg_degrades` at a concrete empty-foreground
input: foreground count 0, kept foreground empty for an arbitrary draw, the
whole budget of 4 to background, and the (empty, hence undersized)
background set kept in full. -/
theorem C10_empty_fg_degrades_witness :
    fgRoisOf iouEx flagsEx [[0,0,10,10,1]] [[0,0,10,30]] = 0 ∧
    keptFgOf iouEx flagsEx [[0,0,10,10,1]] [[0,0,10,30]] [5] = [] ∧
    bgRoisOf iouEx flagsEx [[0,0,10,10,1]] [[0,0,10,30]] = (flagsEx.rois_per_image : ℤ) ∧
    (((bgIndsOf iouEx flagsEx [[0,0,10,10,1]] [[0,0,10,30]]).length : ℤ)
        ≤ bgRoisOf iouEx flagsEx [[0,0,10,10,1]] [[0,0,10,30]] →
      keptBgOf iouEx flagsEx [[0,0,10,10,1]] [[0,0,10,30]] [7]
        = bgIndsOf iouEx flagsEx [[0,0,10,10,1]] [[0,0,10,30]]) :=
  C10_empty_fg_degrades iouEx flagsEx [[0,0,10,10,1]] [[0,0,10,30]] [5] [7]
    (by decide) (by decide)

unseal Rat.mul Rat.add Rat.sub Rat.inv in
/-- C1 (code bug): the only valid sampling outcome of this two-proposal
call keeps exactly proposal 0 (the sole foreground; proposal 1 is in the
dead zone), yet `encode` raises instead of returning R-row arrays:
`_compute_targets` receives the full 2-entry `labels` instead of
`labels[keep_inds]` and its fill loop reads `targets[1]` out of range of
the 1-row targets array. -/
theorem C1_shape_invariance_crashes :
    (∀ x ∈ ([0] : List ℕ),
      x ∈ fgIndsOf iouEx flagsEx [[0,0,10,10,1]] [[0,0,10,10],[0,0,10,30]]) ∧
    ([0] : List ℕ).length
      = (fgRoisOf iouEx flagsEx [[0,0,10,10,1]] [[0,0,10,10],[0,0,10,30]]).toNat ∧
    encode iouEx btEx flagsEx [0] [] [[0,0,10,10,1]] [[0,0,10,10],[0,0,10,30]] 2
      = Except.error PyErr.indexErr :=
  ⟨by decide, by decide, by decide⟩
